import Mathlib

/-!
Shallow embedding of the BMB runtime memory layer.

Vector part: src/bmb/runtime/bmb_runtime.c.  A vector is a heap block of
64-bit words laid out as header plus elements: slot 0 holds the capacity,
slot 1 the length, slots 2.. the elements.  We model the block as a record
whose data map sends an element index i to the word at slot 2 + i; realloc
preserves the stored contents, so growth leaves the data map unchanged.
-/

namespace BmbRuntime

/-- Vector state: cap mirrors vec[0], len mirrors vec[1], and data i is the
word at vec[2 + i].  Machine i64 values are modelled as Int; the claims never
reach the wrap-around regime. -/
structure BmbVec where
  cap : Int
  len : Int
  data : Int → Int

/-- bmb_vec_new: malloc of 10 words, capacity 8, length 0.  malloc leaves
the element slots uninitialized, modelled by the arbitrary junk map. -/
def bmb_vec_new (junk : Int → Int) : BmbVec :=
  { cap := 8, len := 0, data := junk }

/-- bmb_vec_with_capacity: malloc of cap + 2 words, vec[0] = cap (stored as
given, no clamping), vec[1] = 0. -/
def bmb_vec_with_capacity (cap : Int) (junk : Int → Int) : BmbVec :=
  { cap := cap, len := 0, data := junk }

/-- bmb_vec_push: if len >= cap, realloc to (cap * 2) + 2 words and store
the doubled capacity (realloc preserves contents, so data is unchanged);
then write value at slot 2 + len and set the length to len + 1. -/
def bmb_vec_push (v : BmbVec) (value : Int) : BmbVec :=
  let newCap := if v.len ≥ v.cap then v.cap * 2 else v.cap
  { cap := newCap
    len := v.len + 1
    data := fun i => if i = v.len then value else v.data i }

/-- bmb_vec_pop: on length 0 return 0 with the state untouched, else
decrement the length and return the word at slot 2 + len - 1. -/
def bmb_vec_pop (v : BmbVec) : BmbVec × Int :=
  if v.len = 0 then (v, 0)
  else ({ v with len := v.len - 1 }, v.data (v.len - 1))

/-- bmb_vec_get: unchecked read of the word at slot 2 + index. -/
def bmb_vec_get (v : BmbVec) (index : Int) : Int :=
  v.data index

/-- bmb_vec_len: read vec[1]. -/
def bmb_vec_len (v : BmbVec) : Int :=
  v.len

/-- bmb_vec_cap: read vec[0]. -/
def bmb_vec_cap (v : BmbVec) : Int :=
  v.cap

/-- A whole sequence of pushes, first element pushed first. -/
def bmb_vec_pushAll (v : BmbVec) (xs : List Int) : BmbVec :=
  xs.foldl bmb_vec_push v

lemma bmb_vec_pushAll_len (xs : List Int) :
    ∀ v : BmbVec, (bmb_vec_pushAll v xs).len = v.len + xs.length := by
  induction xs with
  | nil => intro v; simp [bmb_vec_pushAll]
  | cons x xs ih =>
      intro v
      have h := ih (bmb_vec_push v x)
      simp only [bmb_vec_pushAll, List.foldl_cons] at h ⊢
      rw [h]
      simp [bmb_vec_push]
      ring

lemma bmb_vec_pushAll_data_low (xs : List Int) :
    ∀ (v : BmbVec) (i : Int), i < v.len →
      (bmb_vec_pushAll v xs).data i = v.data i := by
  induction xs with
  | nil => intro v i _; simp [bmb_vec_pushAll]
  | cons x xs ih =>
      intro v i hi
      have hlt : i < (bmb_vec_push v x).len := by
        simp only [bmb_vec_push]
        omega
      have h := ih (bmb_vec_push v x) i hlt
      simp only [bmb_vec_pushAll, List.foldl_cons] at h ⊢
      rw [h]
      simp only [bmb_vec_push]
      have : i ≠ v.len := by omega
      simp [this]

lemma bmb_vec_pushAll_data_get (xs : List Int) :
    ∀ (v : BmbVec) (i : Nat), i < xs.length →
      (bmb_vec_pushAll v xs).data (v.len + i) = xs.getD i 0 := by
  induction xs with
  | nil => intro v i hi; simp at hi
  | cons x xs ih =>
      intro v i hi
      simp only [bmb_vec_pushAll, List.foldl_cons]
      cases i with
      | zero =>
          have hlt : v.len + (0 : Nat) < (bmb_vec_push v x).len := by
            simp only [bmb_vec_push]
            omega
          have h := bmb_vec_pushAll_data_low xs (bmb_vec_push v x) (v.len + (0 : Nat)) hlt
          simp only [bmb_vec_pushAll] at h
          rw [h]
          simp [bmb_vec_push]
      | succ j =>
          have hj : j < xs.length := by simpa using Nat.lt_of_succ_lt_succ hi
          have h := ih (bmb_vec_push v x) j hj
          simp only [bmb_vec_pushAll] at h
          have hidx : v.len + ((j : Nat) + 1 : Nat) = (bmb_vec_push v x).len + j := by
            simp only [bmb_vec_push]
            push_cast
            ring
          rw [hidx, h]
          simp [List.getD_cons_succ]

/-- C1: every sequence of pushes on a fresh vector from bmb_vec_new ends
with bmb_vec_len equal to the number of pushes, and bmb_vec_get at each
pushed index i returns exactly the value pushed at position i, however many
growth reallocations occurred along the way. -/
theorem vec_push_sequence_correct (junk : Int → Int) (xs : List Int) :
    bmb_vec_len (bmb_vec_pushAll (bmb_vec_new junk) xs) = xs.length ∧
    ∀ i : Nat, i < xs.length →
      bmb_vec_get (bmb_vec_pushAll (bmb_vec_new junk) xs) i = xs.getD i 0 := by
  constructor
  · rw [bmb_vec_len, bmb_vec_pushAll_len]
    simp [bmb_vec_new]
  · intro i hi
    have h := bmb_vec_pushAll_data_get xs (bmb_vec_new junk) i hi
    simpa [bmb_vec_new, bmb_vec_get] using h

/-- Witness for C1 at the concrete push sequence [10, 20, 30]. -/
theorem vec_push_sequence_correct_witness :
    bmb_vec_len (bmb_vec_pushAll (bmb_vec_new (fun _ => 0)) [10, 20, 30]) = 3 ∧
    bmb_vec_get (bmb_vec_pushAll (bmb_vec_new (fun _ => 0)) [10, 20, 30]) 2 = 30 := by
  constructor
  · have h := (vec_push_sequence_correct (fun _ => 0) [10, 20, 30]).1
    simpa using h
  · have h := (vec_push_sequence_correct (fun _ => 0) [10, 20, 30]).2 2 (by decide)
    simpa using h

/-- C2 failing input: push on a vector of capacity 0 (obtained from
bmb_vec_with_capacity 0).  The code computes the new capacity as 0 * 2 = 0
instead of growing to 1 slot, so after the push the capacity is still 0
while the length is 1, breaking length ≤ capacity; the element is written
outside the 2-word allocation. -/
theorem vec_push_zero_capacity_stays_zero :
    bmb_vec_cap (bmb_vec_push (bmb_vec_with_capacity 0 (fun _ => 0)) 42) = 0 ∧
    bmb_vec_len (bmb_vec_push (bmb_vec_with_capacity 0 (fun _ => 0)) 42) = 1 ∧
    bmb_vec_cap (bmb_vec_push (bmb_vec_with_capacity 0 (fun _ => 0)) 42) ≠ 1 := by
  refine ⟨rfl, rfl, by decide⟩

/-- C3 counterexample: bmb_vec_with_capacity (-1) records capacity -1, not
max (-1) 0 = 0 - the code stores the requested capacity unclamped. -/
theorem vec_with_capacity_negative_not_clamped :
    ¬ bmb_vec_cap (bmb_vec_with_capacity (-1) (fun _ => 0)) = max (-1 : Int) 0 := by
  decide

/-- C3 amended: bmb_vec_with_capacity cap records capacity exactly cap
(no clamping of negative requests) and length 0; in particular for cap = 0
the capacity is 0 and the first push satisfies the growth condition
len ≥ cap, so it takes the reallocation path. -/
theorem vec_with_capacity_spec (cap : Int) (junk : Int → Int) :
    bmb_vec_cap (bmb_vec_with_capacity cap junk) = cap ∧
    bmb_vec_len (bmb_vec_with_capacity cap junk) = 0 ∧
    (bmb_vec_with_capacity 0 junk).len ≥ (bmb_vec_with_capacity 0 junk).cap := by
  refine ⟨rfl, rfl, ?_⟩
  simp [bmb_vec_with_capacity]

/-- C4: bmb_vec_pop on a length-0 vector returns 0 and leaves the state
untouched; on a positive-length vector it returns the last element and
decrements the length; a push immediately followed by a pop returns the
pushed value and restores the prior length. -/
theorem vec_pop_spec (v : BmbVec) :
    (v.len = 0 → bmb_vec_pop v = (v, 0)) ∧
    (0 < v.len →
      (bmb_vec_pop v).2 = v.data (v.len - 1) ∧
      bmb_vec_len (bmb_vec_pop v).1 = v.len - 1) ∧
    (0 ≤ v.len → ∀ x : Int,
      (bmb_vec_pop (bmb_vec_push v x)).2 = x ∧
      bmb_vec_len (bmb_vec_pop (bmb_vec_push v x)).1 = v.len) := by
  refine ⟨?_, ?_, ?_⟩
  · intro h
    simp [bmb_vec_pop, h]
  · intro h
    have hne : v.len ≠ 0 := by omega
    simp [bmb_vec_pop, bmb_vec_len, hne]
  · intro h x
    have hne : v.len + 1 ≠ 0 := by omega
    constructor
    · simp [bmb_vec_pop, bmb_vec_push, hne]
    · simp [bmb_vec_pop, bmb_vec_push, bmb_vec_len, hne]

/-- Witness for C4 at concrete vectors: the empty vector, and a vector of
length 2 whose slots all hold 7. -/
theorem vec_pop_spec_witness :
    bmb_vec_pop { cap := 8, len := 0, data := fun _ => 5 } =
      ({ cap := 8, len := 0, data := fun _ => 5 }, 0) ∧
    (bmb_vec_pop { cap := 8, len := 2, data := fun _ => 7 }).2 = 7 ∧
    (bmb_vec_pop (bmb_vec_push { cap := 8, len := 2, data := fun _ => 7 } 9)).2 = 9 := by
  refine ⟨(vec_pop_spec _).1 rfl, ?_, ?_⟩
  · have h := ((vec_pop_spec { cap := 8, len := 2, data := fun _ => 7 }).2.1 (by decide)).1
    exact h.trans rfl
  · exact ((vec_pop_spec { cap := 8, len := 2, data := fun _ => 7 }).2.2 (by decide) 9).1

/-!
ManagedString part: src/runtime/runtime.c.  A BmbString holds a byte buffer
(data, byte values 0..255; the trailing NUL terminator is not part of the
modelled buffer), its length len and allocated capacity cap.  Every
producing operation registers the new instance in the process-wide intern
pool string_pool while string_pool_count < MAX_STRINGS; the pool is
modelled as the list of registered strings, its length being
string_pool_count.  An absent (NULL) string argument is modelled as none.
-/

def MAX_STRINGS : Nat := 65536

/-- The BmbString struct: data buffer, len, cap. -/
structure BmbString where
  data : List Nat
  len : Int
  cap : Int
  deriving DecidableEq

/-- The registration step shared by every string-producing operation:
append to string_pool only while string_pool_count < MAX_STRINGS. -/
def poolRegister (pool : List BmbString) (s : BmbString) : List BmbString :=
  if pool.length < MAX_STRINGS then pool ++ [s] else pool

/-- bmb_string_new: malloc len + 1 bytes, memcpy len bytes from the source
buffer, terminate, set len and cap = len + 1, register in the pool.
The source buffer is the list src; memcpy of len bytes is src.take len. -/
def bmb_string_new (pool : List BmbString) (src : List Nat) (len : Int) :
    BmbString × List BmbString :=
  let s : BmbString := { data := src.take len.toNat, len := len, cap := len + 1 }
  (s, poolRegister pool s)

/-- bmb_string_len: 0 for NULL, else the len field. -/
def bmb_string_len (s : Option BmbString) : Int :=
  match s with
  | none => 0
  | some s => s.len

/-- bmb_string_slice: NULL gives an empty string; start is clamped to ≥ 0
and stop to ≤ len; an empty or inverted clamped range gives an empty
string; otherwise the byte range [start, stop) is copied into a new string
(the C source pointer s->data + start is the drop of the buffer). -/
def bmb_string_slice (pool : List BmbString) (s : Option BmbString)
    (start stop : Int) : BmbString × List BmbString :=
  match s with
  | none => bmb_string_new pool [] 0
  | some s =>
      let start := if start < 0 then 0 else start
      let stop := if stop > s.len then s.len else stop
      if start ≥ stop then bmb_string_new pool [] 0
      else bmb_string_new pool (s.data.drop start.toNat) (stop - start)

/-- bmb_string_concat: both NULL gives empty; one NULL gives a fresh copy
of the other; otherwise the two buffers are copied back to back into a
fresh allocation of len a + len b + 1 bytes, and the result is registered
in the pool. -/
def bmb_string_concat (pool : List BmbString) (a b : Option BmbString) :
    BmbString × List BmbString :=
  match a, b with
  | none, none => bmb_string_new pool [] 0
  | none, some b => bmb_string_new pool b.data b.len
  | some a, none => bmb_string_new pool a.data a.len
  | some a, some b =>
      let newlen := a.len + b.len
      let result : BmbString :=
        { data := a.data.take a.len.toNat ++ b.data.take b.len.toNat
          len := newlen
          cap := newlen + 1 }
      (result, poolRegister pool result)

/-- bmb_string_eq: both NULL equal; one NULL unequal; else compare len
then memcmp the first len bytes. -/
def bmb_string_eq (a b : Option BmbString) : Int :=
  match a, b with
  | none, none => 1
  | none, some _ => 0
  | some _, none => 0
  | some a, some b =>
      if a.len ≠ b.len then 0
      else if a.data.take a.len.toNat = b.data.take b.len.toNat then 1 else 0

/-- bmb_chr: builds the 2-byte buffer { (char)code, 0 } and calls
bmb_string_new with length 1.  Storing code through (char) and reading it
back as unsigned char yields code mod 256. -/
def bmb_chr (pool : List BmbString) (code : Int) : BmbString × List BmbString :=
  bmb_string_new pool [(code % 256).toNat] 1

/-- bmb_ord: 0 for NULL or empty, else the first byte read as unsigned
char. -/
def bmb_ord (s : Option BmbString) : Int :=
  match s with
  | none => 0
  | some s => if s.len = 0 then 0 else (s.data.headD 0 : Nat)

/-- A string as actually constructed by the runtime: the len field counts
exactly the bytes in the buffer. -/
def WFStr (s : BmbString) : Prop :=
  s.len = (s.data.length : Int)

lemma wfStr_take {s : BmbString} (h : WFStr s) :
    s.data.take s.len.toNat = s.data := by
  rw [WFStr] at h
  rw [h, Int.toNat_natCast, List.take_length]

lemma wfStr_toNat {s : BmbString} (h : WFStr s) :
    s.len.toNat = s.data.length := by
  rw [WFStr] at h
  rw [h, Int.toNat_natCast]

lemma wfStr_nonneg {s : BmbString} (h : WFStr s) : 0 ≤ s.len := by
  rw [WFStr] at h
  rw [h]
  exact Int.natCast_nonneg _

/-- C9: for every 64-bit code c, bmb_chr returns a string of length
exactly 1 whose single byte is c truncated to 8 bits; it is distinct
(by bmb_string_eq) from the empty string, even for c = 0; and
bmb_ord (bmb_chr c) = c mod 256. -/
theorem chr_ord_roundtrip (pool pool2 : List BmbString) (code : Int) :
    (bmb_chr pool code).1.len = 1 ∧
    (bmb_chr pool code).1.data = [(code % 256).toNat] ∧
    bmb_string_eq (some (bmb_chr pool code).1)
      (some (bmb_string_new pool2 [] 0).1) = 0 ∧
    bmb_ord (some (bmb_chr pool code).1) = code % 256 := by
  refine ⟨rfl, rfl, by simp [bmb_chr, bmb_string_new, bmb_string_eq], ?_⟩
  have hnn : 0 ≤ code % 256 := Int.emod_nonneg code (by norm_num)
  simp [bmb_chr, bmb_string_new, bmb_ord]
  omega

/-- C5: concatenation is length-additive; slicing the result at len A
recovers strings content-equal to A and to B; a NULL operand is treated as
empty (content-equal to the other operand, fresh copy); both NULL give the
empty string. -/
theorem string_concat_slice_spec (pool pool1 pool2 : List BmbString)
    (A B : BmbString) (hA : WFStr A) (hB : WFStr B) :
    bmb_string_len (some (bmb_string_concat pool (some A) (some B)).1) =
      bmb_string_len (some A) + bmb_string_len (some B) ∧
    bmb_string_eq
      (some (bmb_string_slice pool1
        (some (bmb_string_concat pool (some A) (some B)).1) 0 A.len).1)
      (some A) = 1 ∧
    bmb_string_eq
      (some (bmb_string_slice pool2
        (some (bmb_string_concat pool (some A) (some B)).1)
        A.len (A.len + B.len)).1)
      (some B) = 1 ∧
    bmb_string_eq (some (bmb_string_concat pool none (some B)).1)
      (some B) = 1 ∧
    bmb_string_eq (some (bmb_string_concat pool (some A) none).1)
      (some A) = 1 ∧
    bmb_string_len (some (bmb_string_concat pool none none).1) = 0 := by
  have hAnn : 0 ≤ A.len := wfStr_nonneg hA
  have hBnn : 0 ≤ B.len := wfStr_nonneg hB
  have hdata : (bmb_string_concat pool (some A) (some B)).1.data =
      A.data ++ B.data := by
    simp [bmb_string_concat, wfStr_take hA, wfStr_take hB]
  have hlen : (bmb_string_concat pool (some A) (some B)).1.len =
      A.len + B.len := rfl
  refine ⟨rfl, ?_, ?_, ?_, ?_, rfl⟩
  · -- slice of the concatenation from 0 to len A is content-equal to A
    by_cases hA0 : A.len ≤ 0
    · have hAz : A.len = 0 := le_antisymm hA0 hAnn
      have hAd : A.data = [] := by
        have := wfStr_toNat hA
        rw [hAz] at this
        simpa using this.symm
      have hq : ¬ B.len < 0 := by omega
      simp [bmb_string_slice, bmb_string_new, bmb_string_eq, hlen, hAz, hAd,
        hq]
    · push_neg at hA0
      have hnotlt : ¬ A.len < 0 := by omega
      have hnotgt : ¬ A.len > A.len + B.len := by omega
      have hnotge : ¬ (0 : Int) ≥ A.len := by omega
      simp only [bmb_string_slice, hlen, if_neg (by omega : ¬ (0 : Int) < 0),
        if_neg hnotgt, if_neg hnotge, bmb_string_new]
      have hd : ((bmb_string_concat pool (some A) (some B)).1.data.drop
          (Int.toNat 0)).take (A.len - 0).toNat = A.data := by
        rw [hdata]
        simp only [Int.toNat_zero, List.drop_zero, sub_zero, wfStr_toNat hA]
        exact List.take_left A.data B.data
      rw [hd]
      simp only [bmb_string_eq]
      rw [if_neg (by simp), if_pos]
      rw [wfStr_take hA]
      have : (A.len - 0).toNat = A.data.length := by
        rw [sub_zero, wfStr_toNat hA]
      rw [this, List.take_length]
  · -- slice of the concatenation from len A to the end is content-equal to B
    by_cases hB0 : B.len ≤ 0
    · have hBz : B.len = 0 := le_antisymm hB0 hBnn
      have hBd : B.data = [] := by
        have := wfStr_toNat hB
        rw [hBz] at this
        simpa using this.symm
      have hge : A.len ≥ A.len + B.len := by omega
      have hq : ¬ A.len < 0 := by omega
      simp [bmb_string_slice, bmb_string_new, bmb_string_eq, hlen, hBz, hBd,
        hge, hq]
    · push_neg at hB0
      have hnotlt : ¬ A.len < 0 := by omega
      have hnotgt : ¬ A.len + B.len > A.len + B.len := by omega
      have hnotge : ¬ A.len ≥ A.len + B.len := by omega
      simp only [bmb_string_slice, hlen, if_neg hnotlt, if_neg hnotgt,
        if_neg hnotge, bmb_string_new]
      have hd : ((bmb_string_concat pool (some A) (some B)).1.data.drop
          A.len.toNat).take (A.len + B.len - A.len).toNat = B.data := by
        rw [hdata]
        have h1 : A.len + B.len - A.len = B.len := by ring
        rw [h1, wfStr_toNat hA, wfStr_toNat hB, List.drop_left,
          List.take_length]
      rw [hd]
      simp only [bmb_string_eq]
      rw [if_neg (by simp), if_pos]
      rw [wfStr_take hB]
      have : (A.len + B.len - A.len).toNat = B.data.length := by
        have h1 : A.len + B.len - A.len = B.len := by ring
        rw [h1, wfStr_toNat hB]
      rw [this, List.take_length]
  · -- NULL left operand: result is a fresh copy content-equal to B
    show bmb_string_eq (some (bmb_string_new pool B.data B.len).1)
      (some B) = 1
    simp [bmb_string_eq, bmb_string_new, wfStr_take hB]
  · -- NULL right operand: result is a fresh copy content-equal to A
    show bmb_string_eq (some (bmb_string_new pool A.data A.len).1)
      (some A) = 1
    simp [bmb_string_eq, bmb_string_new, wfStr_take hA]

/-- Witness for C5 at A = [1, 2] and B = [3]. -/
theorem string_concat_slice_spec_witness :
    bmb_string_len (some (bmb_string_concat []
      (some { data := [1, 2], len := 2, cap := 3 })
      (some { data := [3], len := 1, cap := 2 })).1) = 3 ∧
    bmb_string_eq
      (some (bmb_string_slice []
        (some (bmb_string_concat []
          (some { data := [1, 2], len := 2, cap := 3 })
          (some { data := [3], len := 1, cap := 2 })).1) 0 2).1)
      (some { data := [1, 2], len := 2, cap := 3 }) = 1 := by
  have h := string_concat_slice_spec [] [] []
    { data := [1, 2], len := 2, cap := 3 }
    { data := [3], len := 1, cap := 2 } (by rfl) (by rfl)
  exact ⟨h.1.trans (by decide), h.2.1⟩

/-- C6: every string-producing operation routes its pool update through
poolRegister, which appends the new instance while the count is below
MAX_STRINGS and silently omits it once the ceiling is reached; the count
never exceeds the ceiling; and the returned string itself is independent
of the pool state, with the content and length bmb_string_new promises
even when the pool is full. -/
theorem intern_pool_spec (pool pool2 : List BmbString) (s : BmbString)
    (src : List Nat) (len start stop : Int) (a b : Option BmbString)
    (code : Int) :
    (pool.length < MAX_STRINGS → poolRegister pool s = pool ++ [s]) ∧
    (MAX_STRINGS ≤ pool.length → poolRegister pool s = pool) ∧
    (pool.length ≤ MAX_STRINGS →
      (poolRegister pool s).length ≤ MAX_STRINGS) ∧
    (bmb_string_new pool src len).2 =
      poolRegister pool (bmb_string_new pool src len).1 ∧
    (bmb_string_concat pool a b).2 =
      poolRegister pool (bmb_string_concat pool a b).1 ∧
    (bmb_string_slice pool a start stop).2 =
      poolRegister pool (bmb_string_slice pool a start stop).1 ∧
    (bmb_chr pool code).2 = poolRegister pool (bmb_chr pool code).1 ∧
    (bmb_string_new pool src len).1 = (bmb_string_new pool2 src len).1 ∧
    (bmb_string_new pool src len).1.len = len ∧
    (bmb_string_new pool src len).1.data = src.take len.toNat := by
  refine ⟨?_, ?_, ?_, rfl, ?_, ?_, rfl, rfl, rfl, rfl⟩
  · intro h
    simp [poolRegister, h]
  · intro h
    simp [poolRegister, Nat.not_lt.mpr h]
  · intro h
    by_cases hlt : pool.length < MAX_STRINGS
    · simp only [poolRegister, if_pos hlt]
      simp
      omega
    · simpa [poolRegister, hlt] using h
  · rcases a with _ | A <;> rcases b with _ | B <;> rfl
  · rcases a with _ | A
    · rfl
    · simp only [bmb_string_slice]
      split <;> split <;> split <;> rfl

/-- Witness for C6: below the ceiling the empty pool grows by the new
string; a pool already holding MAX_STRINGS entries is left unchanged and
stays at the ceiling. -/
theorem intern_pool_spec_witness :
    poolRegister [] { data := [5], len := 1, cap := 2 } =
      [{ data := [5], len := 1, cap := 2 }] ∧
    poolRegister
        (List.replicate 65536 { data := [], len := 0, cap := 1 })
        { data := [5], len := 1, cap := 2 } =
      List.replicate 65536 { data := [], len := 0, cap := 1 } ∧
    (poolRegister
        (List.replicate 65536 { data := [], len := 0, cap := 1 })
        { data := [5], len := 1, cap := 2 }).length ≤ MAX_STRINGS := by
  have hlen :
      (List.replicate 65536
        ({ data := [], len := 0, cap := 1 } : BmbString)).length =
      MAX_STRINGS := by
    rw [List.length_replicate]
    rfl
  refine ⟨?_, ?_, ?_⟩
  · exact (intern_pool_spec [] [] { data := [5], len := 1, cap := 2 }
      [] 0 0 0 none none 0).1 (by decide)
  · exact (intern_pool_spec
      (List.replicate 65536 { data := [], len := 0, cap := 1 }) []
      { data := [5], len := 1, cap := 2 }
      [] 0 0 0 none none 0).2.1 (le_of_eq hlen.symm)
  · exact (intern_pool_spec
      (List.replicate 65536 { data := [], len := 0, cap := 1 }) []
      { data := [5], len := 1, cap := 2 }
      [] 0 0 0 none none 0).2.2.1 (le_of_eq hlen)

/-!
StringBuilder part: src/runtime/runtime.c.  A StringBuilder holds parallel
arrays of fragment byte copies and their lengths; the fragments and
lengths lists model the live prefix (array slots 0 .. count - 1), count
mirrors sb->count and capacity the allocated slot count.  Builders live in
the process-wide table builders, addressed by small integer handles;
builder_count is the table list's length.  Table slots hold pointers,
modelled as Option, which is what the null checks in each operation test.
-/

def MAX_STRING_BUILDERS : Nat := 1024

/-- The StringBuilder struct. -/
structure StringBuilder where
  fragments : List (List Nat)
  lengths : List Int
  count : Int
  capacity : Int
  deriving DecidableEq

/-- The process-wide builder table; builder_count is builders.length. -/
structure SBState where
  builders : List (Option StringBuilder)
  deriving DecidableEq

/-- bmb_sb_new: -1 once builder_count has reached MAX_STRING_BUILDERS;
otherwise append a fresh builder (count 0, capacity 64) and return the old
builder_count as its handle. -/
def bmb_sb_new (st : SBState) : SBState × Int :=
  if (MAX_STRING_BUILDERS : Int) ≤ (st.builders.length : Int) then (st, -1)
  else
    ({ builders := st.builders ++
        [some { fragments := [], lengths := [], count := 0, capacity := 64 }] },
      (st.builders.length : Int))

/-- The body of bmb_sb_push after the lookup: double the fragment table
capacity if full, copy the string's len bytes into a fresh fragment,
record its length, increment count. -/
def sbPushFrag (sb : StringBuilder) (s : BmbString) : StringBuilder :=
  let capacity := if sb.count ≥ sb.capacity then sb.capacity * 2 else sb.capacity
  { fragments := sb.fragments ++ [s.data.take s.len.toNat]
    lengths := sb.lengths ++ [s.len]
    count := sb.count + 1
    capacity := capacity }

/-- bmb_sb_push: -1 for an out-of-range handle, a null table slot or a
NULL string; otherwise store the fragment copy and return 0. -/
def bmb_sb_push (st : SBState) (handle : Int) (s : Option BmbString) :
    SBState × Int :=
  if handle < 0 ∨ (st.builders.length : Int) ≤ handle then (st, -1)
  else
    match st.builders.getD handle.toNat none, s with
    | some sb, some str =>
        ({ builders :=
            st.builders.set handle.toNat (some (sbPushFrag sb str)) }, 0)
    | _, _ => (st, -1)

/-- bmb_sb_len: 0 for an out-of-range handle or null slot, else the sum of
the first count length entries. -/
def bmb_sb_len (st : SBState) (handle : Int) : Int :=
  if handle < 0 ∨ (st.builders.length : Int) ≤ handle then 0
  else
    match st.builders.getD handle.toNat none with
    | none => 0
    | some sb => (sb.lengths.take sb.count.toNat).sum

/-- bmb_sb_build: an empty string for an out-of-range handle or null slot;
otherwise a buffer of bmb_sb_len bytes filled by copying lengths[i] bytes
of fragments[i] for i < count in order, returned as a new BmbString and
registered in the intern pool.  The builder table is not touched. -/
def bmb_sb_build (st : SBState) (pool : List BmbString) (handle : Int) :
    BmbString × List BmbString :=
  if handle < 0 ∨ (st.builders.length : Int) ≤ handle then
    bmb_string_new pool [] 0
  else
    match st.builders.getD handle.toNat none with
    | none => bmb_string_new pool [] 0
    | some sb =>
        let total := bmb_sb_len st handle
        let data := (List.zipWith (fun f l => f.take l.toNat)
            (sb.fragments.take sb.count.toNat)
            (sb.lengths.take sb.count.toNat)).flatten
        let result : BmbString := { data := data, len := total, cap := total + 1 }
        (result, poolRegister pool result)

/-- bmb_sb_clear: -1 for an out-of-range handle or null slot; otherwise
free every fragment copy and reset count to 0, keeping capacity. -/
def bmb_sb_clear (st : SBState) (handle : Int) : SBState × Int :=
  if handle < 0 ∨ (st.builders.length : Int) ≤ handle then (st, -1)
  else
    match st.builders.getD handle.toNat none with
    | none => (st, -1)
    | some sb =>
        ({ builders := st.builders.set handle.toNat
            (some { fragments := [], lengths := [], count := 0,
                    capacity := sb.capacity }) }, 0)

/-- A whole sequence of pushes to one handle, first string pushed first. -/
def sbPushAll (st : SBState) (handle : Int) (ss : List BmbString) : SBState :=
  ss.foldl (fun acc s => (bmb_sb_push acc handle (some s)).1) st

lemma bmb_sb_len_eval (st : SBState) (handle : Int) (sb : StringBuilder)
    (h0 : 0 ≤ handle) (hlt : handle < (st.builders.length : Int))
    (hsb : st.builders.getD handle.toNat none = some sb) :
    bmb_sb_len st handle = (sb.lengths.take sb.count.toNat).sum := by
  have hcond : ¬ (handle < 0 ∨ (st.builders.length : Int) ≤ handle) := by
    omega
  simp only [bmb_sb_len, if_neg hcond, hsb]

lemma bmb_sb_build_eval (st : SBState) (pool : List BmbString)
    (handle : Int) (sb : StringBuilder)
    (h0 : 0 ≤ handle) (hlt : handle < (st.builders.length : Int))
    (hsb : st.builders.getD handle.toNat none = some sb) :
    (bmb_sb_build st pool handle).1 =
      { data := (List.zipWith (fun f l => f.take l.toNat)
          (sb.fragments.take sb.count.toNat)
          (sb.lengths.take sb.count.toNat)).flatten
        len := bmb_sb_len st handle
        cap := bmb_sb_len st handle + 1 } := by
  have hcond : ¬ (handle < 0 ∨ (st.builders.length : Int) ≤ handle) := by
    omega
  simp only [bmb_sb_build, if_neg hcond, hsb]

lemma bmb_sb_build_pool_indep (st : SBState) (pool pool2 : List BmbString)
    (handle : Int) :
    (bmb_sb_build st pool handle).1 = (bmb_sb_build st pool2 handle).1 := by
  simp only [bmb_sb_build]
  split
  · rfl
  · split <;> rfl

lemma sbPushAll_builders (ss : List BmbString) :
    ∀ (st : SBState) (handle : Int) (sb : StringBuilder),
      0 ≤ handle → handle < (st.builders.length : Int) →
      st.builders.getD handle.toNat none = some sb →
      (sbPushAll st handle ss).builders.length = st.builders.length ∧
      (sbPushAll st handle ss).builders.getD handle.toNat none =
        some (ss.foldl sbPushFrag sb) := by
  induction ss with
  | nil =>
      intro st handle sb h0 hlt hsb
      exact ⟨rfl, hsb⟩
  | cons s ss ih =>
      intro st handle sb h0 hlt hsb
      have hcond : ¬ (handle < 0 ∨ (st.builders.length : Int) ≤ handle) := by
        omega
      have hN : handle.toNat < st.builders.length := by omega
      have hpush : (bmb_sb_push st handle (some s)).1 =
          { builders :=
              st.builders.set handle.toNat (some (sbPushFrag sb s)) } := by
        simp only [bmb_sb_push, if_neg hcond, hsb]
      have hstep : sbPushAll st handle (s :: ss) =
          sbPushAll
            { builders :=
                st.builders.set handle.toNat (some (sbPushFrag sb s)) }
            handle ss := by
        simp only [sbPushAll, List.foldl_cons, hpush]
      have hlt2 : handle <
          ((st.builders.set handle.toNat
            (some (sbPushFrag sb s))).length : Int) := by
        simp only [List.length_set]
        omega
      have hsb2 : (st.builders.set handle.toNat
          (some (sbPushFrag sb s))).getD handle.toNat none =
          some (sbPushFrag sb s) := by
        simp [List.getD, List.getElem?_set_self, hN]
      have h := ih { builders :=
          st.builders.set handle.toNat (some (sbPushFrag sb s)) }
        handle (sbPushFrag sb s) h0 hlt2 hsb2
      rw [hstep]
      refine ⟨?_, ?_⟩
      · rw [h.1]
        simp
      · rw [h.2]
        simp [List.foldl_cons]

lemma foldl_sbPushFrag (ss : List BmbString) :
    ∀ sb : StringBuilder,
      (ss.foldl sbPushFrag sb).fragments =
        sb.fragments ++ ss.map (fun s => s.data.take s.len.toNat) ∧
      (ss.foldl sbPushFrag sb).lengths =
        sb.lengths ++ ss.map (fun s => s.len) ∧
      (ss.foldl sbPushFrag sb).count = sb.count + ss.length := by
  induction ss with
  | nil => intro sb; simp
  | cons s ss ih =>
      intro sb
      have h := ih (sbPushFrag sb s)
      simp only [List.foldl_cons] at h ⊢
      refine ⟨?_, ?_, ?_⟩
      · rw [h.1]; simp [sbPushFrag]
      · rw [h.2.1]; simp [sbPushFrag]
      · rw [h.2.2]
        simp only [sbPushFrag, List.length_cons]
        push_cast
        ring

lemma zipWith_take_wf (ss : List BmbString) (hWF : ∀ s ∈ ss, WFStr s) :
    List.zipWith (fun f l => f.take l.toNat)
      (ss.map (fun s => s.data.take s.len.toNat))
      (ss.map (fun s => s.len)) =
    ss.map BmbString.data := by
  induction ss with
  | nil => rfl
  | cons s ss ih =>
      have hs : WFStr s := hWF s (by simp)
      have hrest : ∀ t ∈ ss, WFStr t := fun t ht => hWF t (by simp [ht])
      simp only [List.map_cons, List.zipWith_cons_cons, ih hrest]
      congr 1
      rw [wfStr_take hs, wfStr_take hs]

/-- C7: bmb_sb_build on an out-of-range handle returns an empty string;
on the handle returned by bmb_sb_new, after any sequence of pushes, it
returns the concatenation of the pushed fragments in insertion order,
with length bmb_sb_len of the handle, which is the sum of the pushed
lengths; the builder state is untouched by build (it returns no state),
so a repeated build - whatever the intern pool holds - gives the same
string. -/
theorem sb_build_spec (st : SBState) (pool pool2 : List BmbString)
    (handle : Int) (ss : List BmbString)
    (hWF : ∀ s ∈ ss, WFStr s)
    (hroom : st.builders.length < MAX_STRING_BUILDERS) :
    ((handle < 0 ∨ (st.builders.length : Int) ≤ handle) →
      (bmb_sb_build st pool handle).1.len = 0 ∧
      (bmb_sb_build st pool handle).1.data = []) ∧
    (bmb_sb_build (sbPushAll (bmb_sb_new st).1 (bmb_sb_new st).2 ss) pool
        (bmb_sb_new st).2).1.data = (ss.map BmbString.data).flatten ∧
    (bmb_sb_build (sbPushAll (bmb_sb_new st).1 (bmb_sb_new st).2 ss) pool
        (bmb_sb_new st).2).1.len =
      bmb_sb_len (sbPushAll (bmb_sb_new st).1 (bmb_sb_new st).2 ss)
        (bmb_sb_new st).2 ∧
    bmb_sb_len (sbPushAll (bmb_sb_new st).1 (bmb_sb_new st).2 ss)
        (bmb_sb_new st).2 = (ss.map BmbString.len).sum ∧
    (bmb_sb_build (sbPushAll (bmb_sb_new st).1 (bmb_sb_new st).2 ss) pool
        (bmb_sb_new st).2).1 =
      (bmb_sb_build (sbPushAll (bmb_sb_new st).1 (bmb_sb_new st).2 ss) pool2
        (bmb_sb_new st).2).1 := by
  have hnewc : ¬ ((MAX_STRING_BUILDERS : Int) ≤ (st.builders.length : Int)) := by
    omega
  have hnew : bmb_sb_new st =
      ({ builders := st.builders ++
          [some { fragments := [], lengths := [], count := 0,
                  capacity := 64 }] },
        (st.builders.length : Int)) := by
    simp only [bmb_sb_new, if_neg hnewc]
  set emptyB : StringBuilder :=
    { fragments := [], lengths := [], count := 0, capacity := 64 } with hEB
  set st1 : SBState := { builders := st.builders ++ [some emptyB] } with hst1
  set n : Nat := st.builders.length with hn
  have hnew1 : (bmb_sb_new st).1 = st1 := by rw [hnew]
  have hnew2 : (bmb_sb_new st).2 = (n : Int) := by rw [hnew]
  have hlen1 : st1.builders.length = n + 1 := by simp [hst1]
  have h0 : (0 : Int) ≤ (n : Int) := by omega
  have hlt1 : (n : Int) < (st1.builders.length : Int) := by
    rw [hlen1]; omega
  have hsb1 : st1.builders.getD ((n : Int)).toNat none = some emptyB := by
    simp only [hst1, Int.toNat_natCast, hn]
    simp [List.getD, List.getElem?_concat_length]
  obtain ⟨hL, hG⟩ := sbPushAll_builders ss st1 (n : Int) emptyB h0 hlt1 hsb1
  obtain ⟨hf, hl, hc⟩ := foldl_sbPushFrag ss emptyB
  have hcToNat : (ss.foldl sbPushFrag emptyB).count.toNat = ss.length := by
    rw [hc]
    simp [hEB]
  have hfTake : (ss.foldl sbPushFrag emptyB).fragments.take
      (ss.foldl sbPushFrag emptyB).count.toNat =
      ss.map (fun s => s.data.take s.len.toNat) := by
    rw [hcToNat, hf]
    simp only [hEB, List.nil_append]
    rw [← List.length_map ss (fun s => s.data.take s.len.toNat),
      List.take_length]
  have hlTake : (ss.foldl sbPushFrag emptyB).lengths.take
      (ss.foldl sbPushFrag emptyB).count.toNat =
      ss.map (fun s => s.len) := by
    rw [hcToNat, hl]
    simp only [hEB, List.nil_append]
    rw [← List.length_map ss (fun s => s.len), List.take_length]
  have hlt2 : (n : Int) < ((sbPushAll st1 (n : Int) ss).builders.length : Int) := by
    rw [hL, hlen1]; omega
  have hlenEval : bmb_sb_len (sbPushAll st1 (n : Int) ss) (n : Int) =
      (ss.map BmbString.len).sum := by
    rw [bmb_sb_len_eval (sbPushAll st1 (n : Int) ss) (n : Int)
      (ss.foldl sbPushFrag emptyB) h0 hlt2 hG, hlTake]
  have hbuildEval := bmb_sb_build_eval (sbPushAll st1 (n : Int) ss) pool
    (n : Int) (ss.foldl sbPushFrag emptyB) h0 hlt2 hG
  refine ⟨?_, ?_, ?_, ?_, ?_⟩
  · intro hcond
    constructor <;> simp [bmb_sb_build, hcond, bmb_string_new]
  · rw [hnew1, hnew2, hbuildEval]
    simp only [hfTake, hlTake]
    rw [zipWith_take_wf ss hWF]
  · rw [hnew1, hnew2, hbuildEval]
  · rw [hnew1, hnew2, hlenEval]
  · rw [hnew1, hnew2]
    exact bmb_sb_build_pool_indep _ pool pool2 _

/-- Witness for C7: pushing "ab", "", "cd" (bytes 97 98, nothing, 99 100)
into a fresh builder gives total length 4 and build returns "abcd". -/
theorem sb_build_spec_witness :
    (bmb_sb_build
      (sbPushAll (bmb_sb_new { builders := [] }).1
        (bmb_sb_new { builders := [] }).2
        [{ data := [97, 98], len := 2, cap := 3 },
         { data := [], len := 0, cap := 1 },
         { data := [99, 100], len := 2, cap := 3 }])
      [] (bmb_sb_new { builders := [] }).2).1.data = [97, 98, 99, 100] ∧
    bmb_sb_len
      (sbPushAll (bmb_sb_new { builders := [] }).1
        (bmb_sb_new { builders := [] }).2
        [{ data := [97, 98], len := 2, cap := 3 },
         { data := [], len := 0, cap := 1 },
         { data := [99, 100], len := 2, cap := 3 }])
      (bmb_sb_new { builders := [] }).2 = 4 := by
  have h := sb_build_spec { builders := [] } [] [] 0
    [{ data := [97, 98], len := 2, cap := 3 },
     { data := [], len := 0, cap := 1 },
     { data := [99, 100], len := 2, cap := 3 }]
    (by
      intro s hs
      simp only [List.mem_cons, List.not_mem_nil, or_false] at hs
      rcases hs with rfl | rfl | rfl <;> rfl)
    (by decide)
  exact ⟨h.2.1.trans rfl, h.2.2.2.1.trans rfl⟩

/-- C8: bmb_sb_clear returns -1 and changes nothing on an out-of-range
handle; on a valid handle it returns 0, resets the builder's count to 0
and empties its live fragments while keeping its capacity, leaves the
table size unchanged, and a subsequent bmb_sb_build on that handle
returns an empty string. -/
theorem sb_clear_spec (st : SBState) (pool : List BmbString) (handle : Int) :
    ((handle < 0 ∨ (st.builders.length : Int) ≤ handle) →
      bmb_sb_clear st handle = (st, -1)) ∧
    (∀ sb : StringBuilder, 0 ≤ handle →
      handle < (st.builders.length : Int) →
      st.builders.getD handle.toNat none = some sb →
      (bmb_sb_clear st handle).2 = 0 ∧
      (bmb_sb_clear st handle).1.builders.getD handle.toNat none =
        some { fragments := [], lengths := [], count := 0,
               capacity := sb.capacity } ∧
      (bmb_sb_clear st handle).1.builders.length = st.builders.length ∧
      (bmb_sb_build (bmb_sb_clear st handle).1 pool handle).1.len = 0 ∧
      (bmb_sb_build (bmb_sb_clear st handle).1 pool handle).1.data = []) := by
  constructor
  · intro hcond
    simp [bmb_sb_clear, hcond]
  · intro sb h0 hlt hsb
    have hcond : ¬ (handle < 0 ∨ (st.builders.length : Int) ≤ handle) := by
      omega
    have hN : handle.toNat < st.builders.length := by omega
    have hclear : bmb_sb_clear st handle =
        ({ builders := st.builders.set handle.toNat
            (some { fragments := [], lengths := [], count := 0,
                    capacity := sb.capacity }) }, 0) := by
      simp only [bmb_sb_clear, if_neg hcond, hsb]
    have hget : (bmb_sb_clear st handle).1.builders.getD handle.toNat none =
        some { fragments := [], lengths := [], count := 0,
               capacity := sb.capacity } := by
      rw [hclear]
      simp [List.getD, List.getElem?_set_self, hN]
    have hlen : (bmb_sb_clear st handle).1.builders.length =
        st.builders.length := by
      rw [hclear]
      simp
    have hlt2 : handle < (((bmb_sb_clear st handle).1.builders.length : Nat) : Int) := by
      rw [hlen]; omega
    have hbuild := bmb_sb_build_eval (bmb_sb_clear st handle).1 pool handle
      { fragments := [], lengths := [], count := 0, capacity := sb.capacity }
      h0 hlt2 hget
    have hlenz : bmb_sb_len (bmb_sb_clear st handle).1 handle = 0 := by
      rw [bmb_sb_len_eval (bmb_sb_clear st handle).1 handle
        { fragments := [], lengths := [], count := 0,
          capacity := sb.capacity } h0 hlt2 hget]
      rfl
    refine ⟨by rw [hclear], hget, hlen, ?_, ?_⟩
    · rw [hbuild, hlenz]
    · rw [hbuild]
      rfl

/-- Witness for C8: clearing the single builder of a one-entry table and
clearing an out-of-range handle. -/
theorem sb_clear_spec_witness :
    bmb_sb_clear
      { builders := [some { fragments := [[97]], lengths := [1], count := 1, capacity := 64 }] } (-1) =
      ({ builders := [some { fragments := [[97]], lengths := [1], count := 1, capacity := 64 }] }, -1) ∧
    (bmb_sb_clear
      { builders := [some { fragments := [[97]], lengths := [1], count := 1, capacity := 64 }] } 0).2 = 0 ∧
    (bmb_sb_build
      (bmb_sb_clear
        { builders := [some { fragments := [[97]], lengths := [1], count := 1, capacity := 64 }] } 0).1
      [] 0).1.data = [] := by
  refine ⟨?_, ?_, ?_⟩
  · exact (sb_clear_spec
      { builders := [some { fragments := [[97]], lengths := [1], count := 1, capacity := 64 }] }
      [] (-1)).1 (by decide)
  · exact ((sb_clear_spec
      { builders := [some { fragments := [[97]], lengths := [1], count := 1, capacity := 64 }] }
      [] 0).2
      { fragments := [[97]], lengths := [1], count := 1, capacity := 64 }
      (by decide) (by decide) (by decide)).1
  · exact ((sb_clear_spec
      { builders := [some { fragments := [[97]], lengths := [1], count := 1, capacity := 64 }] }
      [] 0).2
      { fragments := [[97]], lengths := [1], count := 1, capacity := 64 }
      (by decide) (by decide) (by decide)).2.2.2.2

/-- The builder-table operations, as steps on the table state: bmb_sb_len
reads only, and bmb_sb_build writes only the intern pool, so both leave
the table unchanged. -/
inductive SBOp where
  | newOp : SBOp
  | pushOp (handle : Int) (s : Option BmbString) : SBOp
  | lenOp (handle : Int) : SBOp
  | buildOp (handle : Int) : SBOp
  | clearOp (handle : Int) : SBOp

/-- The table-state effect of one operation. -/
def sbStep (st : SBState) (op : SBOp) : SBState :=
  match op with
  | SBOp.newOp => (bmb_sb_new st).1
  | SBOp.pushOp handle s => (bmb_sb_push st handle s).1
  | SBOp.lenOp _ => st
  | SBOp.buildOp _ => st
  | SBOp.clearOp handle => (bmb_sb_clear st handle).1

/-- A whole sequence of builder-table operations. -/
def sbRun (st : SBState) (ops : List SBOp) : SBState :=
  ops.foldl sbStep st

lemma sbStep_length_mono (st : SBState) (op : SBOp) :
    st.builders.length ≤ (sbStep st op).builders.length := by
  cases op with
  | newOp =>
      simp only [sbStep, bmb_sb_new]
      split
      · exact le_refl _
      · simp
  | pushOp handle s =>
      simp only [sbStep, bmb_sb_push]
      split
      · exact le_refl _
      · split <;> simp
  | lenOp handle => exact le_refl _
  | buildOp handle => exact le_refl _
  | clearOp handle =>
      simp only [sbStep, bmb_sb_clear]
      split
      · exact le_refl _
      · split <;> simp

lemma sbStep_allSome (st : SBState) (op : SBOp)
    (hst : ∀ b ∈ st.builders, b.isSome) :
    ∀ b ∈ (sbStep st op).builders, b.isSome := by
  cases op with
  | newOp =>
      simp only [sbStep, bmb_sb_new]
      split
      · exact hst
      · intro b hb
        simp only [List.mem_append, List.mem_singleton] at hb
        rcases hb with hb | rfl
        · exact hst b hb
        · rfl
  | pushOp handle s =>
      simp only [sbStep, bmb_sb_push]
      split
      · exact hst
      · split
        · intro b hb
          rcases List.mem_or_eq_of_mem_set hb with hb | rfl
          · exact hst b hb
          · rfl
        · exact hst
  | lenOp handle => exact hst
  | buildOp handle => exact hst
  | clearOp handle =>
      simp only [sbStep, bmb_sb_clear]
      split
      · exact hst
      · split
        · exact hst
        · intro b hb
          rcases List.mem_or_eq_of_mem_set hb with hb | rfl
          · exact hst b hb
          · rfl

lemma sbRun_length_mono (ops : List SBOp) :
    ∀ st : SBState, st.builders.length ≤ (sbRun st ops).builders.length := by
  induction ops with
  | nil => intro st; exact le_refl _
  | cons op ops ih =>
      intro st
      exact le_trans (sbStep_length_mono st op) (ih (sbStep st op))

lemma sbRun_allSome (ops : List SBOp) :
    ∀ st : SBState, (∀ b ∈ st.builders, b.isSome) →
      ∀ b ∈ (sbRun st ops).builders, b.isSome := by
  induction ops with
  | nil => intro st h; exact h
  | cons op ops ih =>
      intro st h
      exact ih (sbStep st op) (sbStep_allSome st op h)

/-- C10: over any operation sequence the builder table never shrinks and
(starting from the empty table, or any all-allocated table) every slot
stays non-null, so for a handle in range the lookup is always some and the
null-builder failure branches of push and clear are unreachable (they
return success 0); a handle once below the table size stays below it for
the rest of the run - clear never invalidates it. -/
theorem sb_table_safety (ops : List SBOp) (st : SBState) (handle : Int)
    (s : BmbString) :
    st.builders.length ≤ (sbRun st ops).builders.length ∧
    ((∀ b ∈ st.builders, b.isSome) →
      ∀ b ∈ (sbRun st ops).builders, b.isSome) ∧
    (∀ b ∈ (sbRun { builders := [] } ops).builders, b.isSome) ∧
    ((∀ b ∈ st.builders, b.isSome) → 0 ≤ handle →
      handle < (st.builders.length : Int) →
      (st.builders.getD handle.toNat none).isSome ∧
      (bmb_sb_push st handle (some s)).2 = 0 ∧
      (bmb_sb_clear st handle).2 = 0) ∧
    (0 ≤ handle → handle < (st.builders.length : Int) →
      handle < ((sbRun st ops).builders.length : Int)) := by
  refine ⟨sbRun_length_mono ops st, sbRun_allSome ops st,
    sbRun_allSome ops _ (by simp), ?_, ?_⟩
  · intro hst h0 hlt
    have hN : handle.toNat < st.builders.length := by omega
    have hgetD : st.builders.getD handle.toNat none =
        st.builders[handle.toNat] := by
      simp [List.getD, List.getElem?_eq_getElem hN]
    have hsome : (st.builders.getD handle.toNat none).isSome := by
      rw [hgetD]
      exact hst _ (List.getElem_mem hN)
    obtain ⟨sb, hsb⟩ := Option.isSome_iff_exists.mp hsome
    have hcond : ¬ (handle < 0 ∨ (st.builders.length : Int) ≤ handle) := by
      omega
    refine ⟨hsome, ?_, ?_⟩
    · have hp : bmb_sb_push st handle (some s) =
          ({ builders :=
              st.builders.set handle.toNat (some (sbPushFrag sb s)) }, 0) := by
        simp only [bmb_sb_push, if_neg hcond, hsb]
      rw [hp]
    · have hc : bmb_sb_clear st handle =
          ({ builders := st.builders.set handle.toNat
              (some { fragments := [], lengths := [], count := 0,
                      capacity := sb.capacity }) }, 0) := by
        simp only [bmb_sb_clear, if_neg hcond, hsb]
      rw [hc]
  · intro h0 hlt
    have h := sbRun_length_mono ops st
    omega

/-- Witness for C10 at a one-builder table: push and clear on handle 0
succeed, the run of one new keeps handle 0 valid, and the all-allocated
invariant holds after running from the empty table. -/
theorem sb_table_safety_witness :
    (bmb_sb_push
      { builders := [some { fragments := [], lengths := [], count := 0, capacity := 64 }] }
      0 (some { data := [97], len := 1, cap := 2 })).2 = 0 ∧
    (bmb_sb_clear
      { builders := [some { fragments := [], lengths := [], count := 0, capacity := 64 }] }
      0).2 = 0 ∧
    (0 : Int) <
      ((sbRun { builders := [some { fragments := [], lengths := [], count := 0, capacity := 64 }] }
        [SBOp.newOp]).builders.length : Int) ∧
    (∀ b ∈ (sbRun { builders := [] } [SBOp.newOp]).builders, b.isSome) := by
  have h := sb_table_safety [SBOp.newOp]
    { builders := [some { fragments := [], lengths := [], count := 0, capacity := 64 }] }
    0 { data := [97], len := 1, cap := 2 }
  have hvalid := h.2.2.2.1 (by decide) (by decide) (by decide)
  exact ⟨hvalid.2.1, hvalid.2.2, h.2.2.2.2 (by decide) (by decide), h.2.2.1⟩

end BmbRuntime
